import Mathlib

/-!
Shallow embedding of the Julian repository (julian.py, utils.py) over exact
rationals.  Python's `float` arithmetic is modelled by `ℚ`: every literal in
the source (365.25, 30.6001, 1524.5, the sidereal constants, ...) is an exact
decimal, so the formulas translate verbatim.  Python `int(x)` / `math.trunc`
is truncation toward zero; `math.floor` is `⌊·⌋`; `%` on floats with a
positive modulus is `x - y * ⌊x / y⌋`; `round(x, 6)` is round-half-to-even at
six decimals.
-/

/-- Python `int(x)` / `math.trunc(x)`: truncation toward zero. -/
def ratTrunc (q : ℚ) : ℤ := if 0 ≤ q then ⌊q⌋ else ⌈q⌉

/-- Python `x % y` for a positive real modulus: `x - y * floor (x / y)`. -/
def pymod (x y : ℚ) : ℚ := x - y * ⌊x / y⌋

/-- Python `round` to an integer: round half to even (banker's rounding). -/
def roundHalfEven (q : ℚ) : ℤ :=
  if q - ⌊q⌋ < 1/2 then ⌊q⌋
  else if 1/2 < q - ⌊q⌋ then ⌊q⌋ + 1
  else if ⌊q⌋ % 2 = 0 then ⌊q⌋ else ⌊q⌋ + 1

/-- Python `round(x, 6)`. -/
def pyround6 (q : ℚ) : ℚ := (roundHalfEven (q * 1000000) : ℚ) / 1000000

namespace julian

/-- `julian.is_leap`:
`year % 4 == 0 and (year % 100 != 0 or year % 400 == 0)`
(Python `%` on ints with a positive modulus is `Int.emod`). -/
def is_leap (year : ℤ) : Bool :=
  year % 4 == 0 && (year % 100 != 0 || year % 400 == 0)

/-- `julian.day_fraction`:
`hours / 24.0 + minutes / 1440.0 + (seconds + milliseconds / 1000.0) / 86400.0`. -/
def day_fraction (hours minutes seconds milliseconds : ℚ) : ℚ :=
  hours / 24 + minutes / 1440 + (seconds + milliseconds / 1000) / 86400

/-- `julian.is_julian`:
`year < 1582 or year == 1582 and (month < 10 or month == 10 and day < 15)`.
The day argument is kept rational: `julian.julian_day` passes the raw
(possibly fractional) day through. -/
def is_julian (year month : ℤ) (day : ℚ) : Bool :=
  year < 1582 || (year == 1582 && (month < 10 || (month == 10 && day < 15)))

/-- `julian.julian_day` (Meeus).  Jan/Feb roll back to month 13/14 of the
preceding year; the calendar test uses the adjusted year/month and the raw
day; `math.trunc` is truncation toward zero. -/
def julian_day (year month : ℤ) (day : ℚ) : ℚ :=
  let year' := if month == 1 || month == 2 then year - 1 else year
  let month' := if month == 1 || month == 2 then month + 12 else month
  let b : ℤ :=
    if is_julian year' month' day then 0
    else
      let a := ratTrunc ((year' : ℚ) / 100)
      2 - a + ratTrunc ((a : ℚ) / 4)
  (ratTrunc (365.25 * ((year' : ℚ) + 4716)) : ℚ)
    + (ratTrunc (30.6001 * ((month' : ℚ) + 1)) : ℚ) + day + b - 1524.5

end julian

namespace utils

/-- `utils.DEGREES_PER_HOUR = 360 / 24`. -/
def DEGREES_PER_HOUR : ℚ := 360 / 24

/-- `utils.DEGREES_PER_MINUTE = 360 / 1440`. -/
def DEGREES_PER_MINUTE : ℚ := 360 / 1440

/-- `utils.DEGREES_PER_SECOND = 360 / 86400`. -/
def DEGREES_PER_SECOND : ℚ := 360 / 86400

/-- `utils.time_to_angle`:
`hours * DEGREES_PER_HOUR + minutes * DEGREES_PER_MINUTE + seconds * DEGREES_PER_SECOND`. -/
def time_to_angle (hours minutes seconds : ℚ) : ℚ :=
  hours * DEGREES_PER_HOUR + minutes * DEGREES_PER_MINUTE + seconds * DEGREES_PER_SECOND

/-- `utils.angle_to_time`: hours = degrees / 15; minutes and seconds from the
fractional parts via `math.floor`; seconds rounded to 6 decimals; the integer
fields are produced by Python `int(...)` (truncation toward zero). -/
def angle_to_time (degrees : ℚ) : ℤ × ℤ × ℚ :=
  let hours : ℚ := degrees / DEGREES_PER_HOUR
  let minutes : ℚ := (hours - ⌊hours⌋) * 60
  let seconds : ℚ := (minutes - ⌊minutes⌋) * 60
  (ratTrunc hours, ratTrunc minutes, pyround6 seconds)

/-- `utils.is_leap`: same body as `julian.is_leap`. -/
def is_leap (year : ℤ) : Bool :=
  year % 4 == 0 && (year % 100 != 0 || year % 400 == 0)

/-- `utils.day_fraction`: same body as `julian.day_fraction`. -/
def day_fraction (hours minutes seconds milliseconds : ℚ) : ℚ :=
  hours / 24 + minutes / 1440 + (seconds + milliseconds / 1000) / 86400

/-- `utils.is_julian`: same body as `julian.is_julian`. -/
def is_julian (year month : ℤ) (day : ℚ) : Bool :=
  year < 1582 || (year == 1582 && (month < 10 || (month == 10 && day < 15)))

/-- `utils.julian_day`: identical to `julian.julian_day` except that the
calendar test receives `int(day)`. -/
def julian_day (year month : ℤ) (day : ℚ) : ℚ :=
  let year' := if month == 1 || month == 2 then year - 1 else year
  let month' := if month == 1 || month == 2 then month + 12 else month
  let b : ℤ :=
    if is_julian year' month' ((ratTrunc day : ℤ) : ℚ) then 0
    else
      let a := ratTrunc ((year' : ℚ) / 100)
      2 - a + ratTrunc ((a : ℚ) / 4)
  (ratTrunc (365.25 * ((year' : ℚ) + 4716)) : ℚ)
    + (ratTrunc (30.6001 * ((month' : ℚ) + 1)) : ℚ) + day + b - 1524.5

/-- `utils.mean_sidereal_time`: builds the Julian day from the civil datetime
(milliseconds are `int((seconds - floor seconds) * 1000)`, the day-fraction
call receives `int(seconds)`), then applies the IAU 1982 polynomial and the
final `% 360`. -/
def mean_sidereal_time (year month day hours minutes : ℤ) (seconds : ℚ) : ℚ :=
  let milliseconds : ℤ := ratTrunc ((seconds - ⌊seconds⌋) * 1000)
  let jd := julian_day year month
    ((day : ℚ) + day_fraction hours minutes (ratTrunc seconds) milliseconds)
  let t := (jd - 2451545.0) / 36525
  pymod (280.46061837 + 360.98564736629 * (jd - 2451545.0)
    + 0.000387933 * t ^ 2 - t ^ 3 / 38710000) 360

end utils

/-- The Meeus Julian-day algorithm transcribed from the specification's own
wording (§4.1 steps 1-4): replace `(year, month)` by `(year - 1, month + 12)`
when the month is 1 or 2; `B = 0` when the adjusted date is classified Julian
by the calendar test, otherwise `B = 2 - A + trunc(A / 4)` with
`A = trunc(year / 100)`; every truncation toward zero; result
`trunc(365.25 * (year + 4716)) + trunc(30.6001 * (month + 1)) + day + B - 1524.5`. -/
def julian_day_meeus_spec (year month : ℤ) (day : ℚ) : ℚ :=
  let yr := if month = 1 ∨ month = 2 then year - 1 else year
  let mo := if month = 1 ∨ month = 2 then month + 12 else month
  let B : ℤ :=
    if utils.is_julian yr mo day then 0
    else 2 - ratTrunc ((yr : ℚ) / 100) + ratTrunc ((ratTrunc ((yr : ℚ) / 100) : ℚ) / 4)
  (ratTrunc (365.25 * ((yr : ℚ) + 4716)) : ℚ)
    + (ratTrunc (30.6001 * ((mo : ℚ) + 1)) : ℚ) + day + (B : ℚ) - 1524.5


/-! ### Derived notions used to state the amended monotonicity claim -/

/-- Number of days of the civil month, using the source's `is_leap` rule for
February. -/
def monthLength (year month : ℤ) : ℤ :=
  if month = 2 then (if utils.is_leap year then 29 else 28)
  else if month = 4 ∨ month = 6 ∨ month = 9 ∨ month = 11 then 30
  else 31

/-- A valid civil date: month 1..12, day (with fractional part) inside the
month, and not one of the skipped dates 1582-10-05 .. 1582-10-14. -/
def validDate (year month : ℤ) (day : ℚ) : Prop :=
  1 ≤ month ∧ month ≤ 12 ∧ 1 ≤ day ∧ day < (monthLength year month : ℚ) + 1
    ∧ ¬(year = 1582 ∧ month = 10 ∧ 5 ≤ day ∧ day < 15)

/-- Calendar (lexicographic) order on civil dates. -/
def calLt (y1 m1 : ℤ) (d1 : ℚ) (y2 m2 : ℤ) (d2 : ℚ) : Prop :=
  y1 < y2 ∨ (y1 = y2 ∧ (m1 < m2 ∨ (m1 = m2 ∧ d1 < d2)))

/-- Integer part of the Meeus formula, in Euclidean-division form (valid for
the year range `-4712 ≤ year`, where truncation agrees with flooring);
`jul` selects the correction branch. -/
def jdInt (year month : ℤ) (jul : Bool) : ℤ :=
  let Y := if month ≤ 2 then year - 1 else year
  let M := if month ≤ 2 then month + 12 else month
  1461 * (Y + 4716) / 4 + 306001 * (M + 1) / 10000
    + (if jul then 0 else 2 - Y / 100 + Y / 100 / 4)

/-- The calendar branch taken by `utils.julian_day` (for months > 2 the day
argument matters only in October 1582). -/
def julCls (year month : ℤ) (day : ℚ) : Bool :=
  if month ≤ 2 then decide (year ≤ 1582) else utils.is_julian year month day

/-- Year of the month following (y, m). -/
def nextY (y m : ℤ) : ℤ := if m = 12 then y + 1 else y

/-- Month following m. -/
def nextM (m : ℤ) : ℤ := if m = 12 then 1 else m + 1

/-- Months enumerated linearly: `12 * year + month - 1`. -/
def monthIdx (y m : ℤ) : ℤ := 12 * y + m - 1

/-! ### Basic facts about the Python primitives -/

theorem ratTrunc_eq_floor {q : ℚ} (h : 0 ≤ q) : ratTrunc q = ⌊q⌋ := by
  unfold ratTrunc; exact if_pos h

theorem ratTrunc_lt_iff {q : ℚ} {n : ℤ} (hn : 1 ≤ n) : ratTrunc q < n ↔ q < (n : ℚ) := by
  unfold ratTrunc
  split
  · exact Int.floor_lt
  · rename_i hq
    have hq0 : q < 0 := not_le.mp hq
    have hn0 : (0 : ℚ) ≤ (n : ℚ) := by exact_mod_cast (by omega : (0 : ℤ) ≤ n)
    constructor
    · intro _; exact lt_of_lt_of_le hq0 hn0
    · intro _
      have hc : ⌈q⌉ ≤ 0 := Int.ceil_le.mpr (by exact_mod_cast hq0.le)
      omega

theorem is_julian_defs_eq (y m : ℤ) (d : ℚ) :
    julian.is_julian y m d = utils.is_julian y m d := rfl

theorem is_julian_ratTrunc (y m : ℤ) (d : ℚ) :
    utils.is_julian y m ((ratTrunc d : ℤ) : ℚ) = utils.is_julian y m d := by
  have h15 : decide (((ratTrunc d : ℤ) : ℚ) < 15) = decide (d < 15) := by
    apply decide_eq_decide.mpr
    have h := ratTrunc_lt_iff (q := d) (n := 15) (by norm_num)
    constructor
    · intro hc; exact h.mp (by exact_mod_cast hc)
    · intro hc; exact_mod_cast h.mpr hc
  unfold utils.is_julian
  rw [h15]

theorem pymod_nonneg (x y : ℚ) (hy : 0 < y) : 0 ≤ pymod x y := by
  unfold pymod
  have h1 : ((⌊x / y⌋ : ℤ) : ℚ) ≤ x / y := Int.floor_le _
  have h2 : y * ((⌊x / y⌋ : ℤ) : ℚ) ≤ y * (x / y) := by
    exact mul_le_mul_of_nonneg_left h1 hy.le
  have h3 : y * (x / y) = x := by field_simp
  linarith

theorem pymod_lt (x y : ℚ) (hy : 0 < y) : pymod x y < y := by
  unfold pymod
  have h1 : x / y < ((⌊x / y⌋ : ℤ) : ℚ) + 1 := Int.lt_floor_add_one _
  have h2 : y * (x / y) < y * (((⌊x / y⌋ : ℤ) : ℚ) + 1) :=
    mul_lt_mul_of_pos_left h1 hy
  have h3 : y * (x / y) = x := by field_simp
  have h4 : y * (((⌊x / y⌋ : ℤ) : ℚ) + 1) = y * ((⌊x / y⌋ : ℤ) : ℚ) + y := by ring
  linarith

theorem roundHalfEven_abs_le (q : ℚ) : |((roundHalfEven q : ℤ) : ℚ) - q| ≤ 1 / 2 := by
  unfold roundHalfEven
  have h0 : ((⌊q⌋ : ℤ) : ℚ) ≤ q := Int.floor_le q
  have h1 : q < ((⌊q⌋ : ℤ) : ℚ) + 1 := Int.lt_floor_add_one q
  split
  · rename_i h; rw [abs_le]; constructor <;> linarith
  · split
    · rename_i h h'
      rw [abs_le]; push_cast; constructor <;> linarith [not_lt.mp h]
    · split
      · rename_i h h' _
        have he : q - ((⌊q⌋ : ℤ) : ℚ) = 1 / 2 := le_antisymm (not_lt.mp h') (not_lt.mp h)
        rw [abs_le]; constructor <;> linarith
      · rename_i h h' _
        have he : q - ((⌊q⌋ : ℤ) : ℚ) = 1 / 2 := le_antisymm (not_lt.mp h') (not_lt.mp h)
        rw [abs_le]; push_cast; constructor <;> linarith

theorem pyround6_abs_le (q : ℚ) : |pyround6 q - q| ≤ 1 / 2000000 := by
  unfold pyround6
  have h := roundHalfEven_abs_le (q * 1000000)
  have e : ((roundHalfEven (q * 1000000) : ℤ) : ℚ) / 1000000 - q
      = (((roundHalfEven (q * 1000000) : ℤ) : ℚ) - q * 1000000) / 1000000 := by ring
  rw [e, abs_div, abs_of_pos (by norm_num : (0 : ℚ) < 1000000)]
  rw [div_le_div_iff₀ (by norm_num) (by norm_num)]
  linarith

theorem ratTrunc_intCast_div_natCast (a : ℤ) (n : ℕ) (ha : 0 ≤ a) :
    ratTrunc ((a : ℚ) / (n : ℚ)) = a / (n : ℤ) := by
  rw [ratTrunc_eq_floor (div_nonneg (by exact_mod_cast ha) (by positivity))]
  exact Rat.floor_intCast_div_natCast a n

theorem ratTrunc_mul_365 (N : ℤ) (h : 0 ≤ N) :
    ratTrunc (365.25 * (N : ℚ)) = 1461 * N / 4 := by
  have e : (365.25 : ℚ) * (N : ℚ) = ((1461 * N : ℤ) : ℚ) / ((4 : ℕ) : ℚ) := by
    push_cast; norm_num; ring
  rw [e, ratTrunc_intCast_div_natCast _ _ (mul_nonneg (by norm_num) h)]
  norm_num

theorem ratTrunc_mul_306 (M : ℤ) (h : 0 ≤ M) :
    ratTrunc (30.6001 * (M : ℚ)) = 306001 * M / 10000 := by
  have e : (30.6001 : ℚ) * (M : ℚ) = ((306001 * M : ℤ) : ℚ) / ((10000 : ℕ) : ℚ) := by
    push_cast; norm_num; ring
  rw [e, ratTrunc_intCast_div_natCast _ _ (mul_nonneg (by norm_num) h)]
  norm_num

/-- C1: for every integer year, month in 1..12, and rational day, both copies
of `julian_day` return exactly the Meeus algorithm result as the spec words
it: Jan/Feb shifted to month 13/14 of the preceding year, `B = 0` on the
Julian side of the cutover and `B = 2 - A + trunc(A/4)` with
`A = trunc(year/100)` otherwise, all truncations toward zero, and the final
value `trunc(365.25 (year+4716)) + trunc(30.6001 (month+1)) + day + B - 1524.5`. -/
theorem julian_day_matches_meeus (y m : ℤ) (d : ℚ) (_hm1 : 1 ≤ m) (_hm2 : m ≤ 12) :
    utils.julian_day y m d = julian_day_meeus_spec y m d
      ∧ julian.julian_day y m d = julian_day_meeus_spec y m d := by
  by_cases hm12 : m = 1 ∨ m = 2
  · have hb : (m == 1 || m == 2) = true := by
      rcases hm12 with h | h <;> simp [h]
    constructor <;>
      simp only [utils.julian_day, julian.julian_day, julian_day_meeus_spec, hb,
        is_julian_ratTrunc, is_julian_defs_eq, if_pos hm12, if_true]
  · have hb : (m == 1 || m == 2) = false := by
      push_neg at hm12
      simp [hm12.1, hm12.2]
    constructor <;>
      simp only [utils.julian_day, julian.julian_day, julian_day_meeus_spec, hb,
        is_julian_ratTrunc, is_julian_defs_eq, if_neg hm12, Bool.false_eq_true, if_false]

/-- Witness for `julian_day_matches_meeus` at the J2000 anchor (2000-01-01.5). -/
theorem julian_day_matches_meeus_witness :
    utils.julian_day 2000 1 1.5 = julian_day_meeus_spec 2000 1 1.5
      ∧ julian.julian_day 2000 1 1.5 = julian_day_meeus_spec 2000 1 1.5 :=
  julian_day_matches_meeus 2000 1 1.5 (by norm_num) (by norm_num)

/-- C2: the documented anchor dates evaluate exactly: the epoch origin
`julian_day(-4712,1,1.5) = 0`, the J2000 epoch `julian_day(2000,1,1.5) =
2451545`, and the 1582 cutover pair `2299159.5` / `2299160.5`, exactly 1.0
apart despite the eleven skipped civil days. -/
theorem julian_day_anchor_dates :
    utils.julian_day (-4712) 1 1.5 = 0
      ∧ utils.julian_day 2000 1 1.5 = 2451545
      ∧ utils.julian_day 1582 10 4 = 2299159.5
      ∧ utils.julian_day 1582 10 15 = 2299160.5
      ∧ utils.julian_day 1582 10 15 - utils.julian_day 1582 10 4 = 1 := by
  refine ⟨?_, ?_, ?_, ?_, ?_⟩ <;>
    norm_num [utils.julian_day, utils.is_julian, ratTrunc]

/-- C3: for every civil date and time input (any integers and any rational
seconds, so in particular any pre-J2000 date with negative `T`),
`mean_sidereal_time` lands in the half-open interval `[0, 360)`: the final
modulo-360 is a true mathematical modulo with a non-negative result. -/
theorem mean_sidereal_time_mem_Ico (y m d h mi : ℤ) (s : ℚ) :
    0 ≤ utils.mean_sidereal_time y m d h mi s
      ∧ utils.mean_sidereal_time y m d h mi s < 360 := by
  constructor
  · exact pymod_nonneg _ _ (by norm_num)
  · exact pymod_lt _ _ (by norm_num)

/-- C4: `is_julian` returns true exactly on
`year < 1582 ∨ (year = 1582 ∧ (month < 10 ∨ (month = 10 ∧ day < 15)))`;
in particular it is true on 1582-10-04, false on 1582-10-15, and being a total
function it classifies (never rejects) the nonexistent dates Oct 5-14, 1582. -/
theorem is_julian_iff_cutover :
    (∀ (y m : ℤ) (d : ℚ), utils.is_julian y m d = true ↔
      (y < 1582 ∨ (y = 1582 ∧ (m < 10 ∨ (m = 10 ∧ d < 15)))))
      ∧ utils.is_julian 1582 10 4 = true ∧ utils.is_julian 1582 10 15 = false := by
  refine ⟨?_, by norm_num [utils.is_julian], by norm_num [utils.is_julian]⟩
  intro y m d
  simp [utils.is_julian]

/-- C7: the duplicate `julian_day` implementations (julian.py passes the raw
day to the calendar test, utils.py passes `int(day)`) agree extensionally for
months 1..12 and nonnegative day. -/
theorem julian_day_versions_agree (y m : ℤ) (d : ℚ) (_hm1 : 1 ≤ m) (_hm2 : m ≤ 12)
    (_hd : 0 ≤ d) : julian.julian_day y m d = utils.julian_day y m d := by
  simp only [julian.julian_day, utils.julian_day, is_julian_ratTrunc, is_julian_defs_eq]

/-- Witness for `julian_day_versions_agree` at the Sputnik-launch test vector. -/
theorem julian_day_versions_agree_witness :
    julian.julian_day 1957 10 4.81 = utils.julian_day 1957 10 4.81 :=
  julian_day_versions_agree 1957 10 4.81 (by norm_num) (by norm_num) (by norm_num)

/-- C6 (counterexample): the integer hours field of `angle_to_time` is NOT
`floor(degrees / 15)` on negative input: at −7.5 degrees the code returns
hours `int(-0.5) = 0`, while `floor(-7.5 / 15) = -1`. -/
theorem angle_to_time_hours_not_floor :
    (utils.angle_to_time (-7.5)).1 ≠ ⌊(-7.5 : ℚ) / 15⌋ := by
  have hc : ⌈(-(1 / 2) : ℚ)⌉ = 0 := by norm_num
  norm_num [utils.angle_to_time, utils.DEGREES_PER_HOUR, ratTrunc, hc]

/-- C6 (amended): the integer hours field of `angle_to_time` is
`trunc(degrees / 15)` (truncation toward zero) for every input, and it
coincides with `floor(degrees / 15)` whenever the input is nonnegative. -/
theorem angle_to_time_hours_eq_trunc (d : ℚ) :
    (utils.angle_to_time d).1 = ratTrunc (d / 15)
      ∧ (0 ≤ d → (utils.angle_to_time d).1 = ⌊d / 15⌋) := by
  have e : utils.DEGREES_PER_HOUR = 15 := by norm_num [utils.DEGREES_PER_HOUR]
  constructor
  · simp [utils.angle_to_time, e]
  · intro hd
    have h1 : (utils.angle_to_time d).1 = ratTrunc (d / 15) := by
      simp [utils.angle_to_time, e]
    rw [h1, ratTrunc_eq_floor (div_nonneg hd (by norm_num))]

/-- Witness for `angle_to_time_hours_eq_trunc` at 30 degrees. -/
theorem angle_to_time_hours_eq_trunc_witness :
    (utils.angle_to_time 30).1 = ratTrunc ((30 : ℚ) / 15)
      ∧ (utils.angle_to_time 30).1 = ⌊(30 : ℚ) / 15⌋ :=
  ⟨(angle_to_time_hours_eq_trunc 30).1, (angle_to_time_hours_eq_trunc 30).2 (by norm_num)⟩

/-- C10: the angle converter is the day-fraction converter scaled by 360
degrees: `time_to_angle h m s = 360 * day_fraction h m s 0` for all inputs. -/
theorem time_to_angle_eq_scaled_day_fraction (h m s : ℚ) :
    utils.time_to_angle h m s = 360 * utils.day_fraction h m s 0 := by
  unfold utils.time_to_angle utils.day_fraction utils.DEGREES_PER_HOUR
    utils.DEGREES_PER_MINUTE utils.DEGREES_PER_SECOND
  ring

/-- C9: every core function is a total function of its arguments (the
embedding is a plain function: it returns a value on every input, including
the spec's stress inputs minutes = 60, day = 32 and the skipped cutover dates,
whose outputs are computed here exactly). -/
theorem core_functions_total :
    (∀ y : ℤ, utils.is_leap y = true ∨ utils.is_leap y = false)
      ∧ (∀ h m s ms : ℚ, ∃ r : ℚ, utils.day_fraction h m s ms = r)
      ∧ (∀ (y m : ℤ) (d : ℚ), utils.is_julian y m d = true ∨ utils.is_julian y m d = false)
      ∧ (∀ (y m : ℤ) (d : ℚ), ∃ r : ℚ, utils.julian_day y m d = r)
      ∧ (∀ h m s : ℚ, ∃ r : ℚ, utils.time_to_angle h m s = r)
      ∧ (∀ d : ℚ, ∃ r : ℤ × ℤ × ℚ, utils.angle_to_time d = r)
      ∧ (∀ (y m d h mi : ℤ) (s : ℚ), ∃ r : ℚ, utils.mean_sidereal_time y m d h mi s = r)
      ∧ utils.day_fraction 0 60 0 0 = utils.day_fraction 1 0 0 0
      ∧ utils.julian_day 2020 1 32 = 2458880.5
      ∧ utils.julian_day 1582 10 10 = 2299165.5 := by
  refine ⟨fun y => ?_, fun h m s ms => ⟨_, rfl⟩, fun y m d => ?_, fun y m d => ⟨_, rfl⟩,
    fun h m s => ⟨_, rfl⟩, fun d => ⟨_, rfl⟩, fun y m d h mi s => ⟨_, rfl⟩, ?_, ?_, ?_⟩
  · cases utils.is_leap y <;> simp
  · cases utils.is_julian y m d <;> simp
  · norm_num [utils.day_fraction]
  · norm_num [utils.julian_day, utils.is_julian, ratTrunc]
  · norm_num [utils.julian_day, utils.is_julian, ratTrunc]

/-- C5: round-trip through the angle representation.  For `0 ≤ h < 24`,
`0 ≤ m < 60`, `0 ≤ s < 60`, converting (h, m, s) to degrees and back
reproduces the hours and minutes exactly and the seconds to within the
6-decimal rounding (at most 5e-7 away). -/
theorem angle_time_roundtrip (h m : ℤ) (s : ℚ) (hh0 : 0 ≤ h) (hh : h < 24)
    (hm0 : 0 ≤ m) (hm : m < 60) (hs0 : 0 ≤ s) (hs : s < 60) :
    (utils.angle_to_time (utils.time_to_angle h m s)).1 = h
      ∧ (utils.angle_to_time (utils.time_to_angle h m s)).2.1 = m
      ∧ |(utils.angle_to_time (utils.time_to_angle h m s)).2.2 - s| ≤ 1 / 2000000 := by
  have hh0' : (0 : ℚ) ≤ (h : ℚ) := by exact_mod_cast hh0
  have hm0' : (0 : ℚ) ≤ (m : ℚ) := by exact_mod_cast hm0
  have hm' : (m : ℚ) ≤ 59 := by exact_mod_cast (by omega : m ≤ 59)
  have ehours : utils.time_to_angle h m s / utils.DEGREES_PER_HOUR
      = (h : ℚ) + ((m : ℚ) / 60 + s / 3600) := by
    unfold utils.time_to_angle utils.DEGREES_PER_HOUR utils.DEGREES_PER_MINUTE
      utils.DEGREES_PER_SECOND
    ring
  have hfrac0 : 0 ≤ (m : ℚ) / 60 + s / 3600 :=
    add_nonneg (div_nonneg hm0' (by norm_num)) (div_nonneg hs0 (by norm_num))
  have hfrac1 : (m : ℚ) / 60 + s / 3600 < 1 := by
    have h1 : (m : ℚ) / 60 ≤ 59 / 60 := by linarith
    have h2 : s / 3600 < 60 / 3600 := by linarith
    linarith
  have hfloorh : ⌊(h : ℚ) + ((m : ℚ) / 60 + s / 3600)⌋ = h := by
    rw [add_comm, Int.floor_add_int]
    have h0 : ⌊(m : ℚ) / 60 + s / 3600⌋ = 0 := Int.floor_eq_zero_iff.mpr ⟨hfrac0, hfrac1⟩
    omega
  have hsf0 : 0 ≤ s / 60 := div_nonneg hs0 (by norm_num)
  have hsf1 : s / 60 < 1 := by linarith
  have hfloorm : ⌊(m : ℚ) + s / 60⌋ = m := by
    rw [add_comm, Int.floor_add_int]
    have h0 : ⌊s / 60⌋ = 0 := Int.floor_eq_zero_iff.mpr ⟨hsf0, hsf1⟩
    omega
  have hhours_nonneg : 0 ≤ (h : ℚ) + ((m : ℚ) / 60 + s / 3600) := add_nonneg hh0' hfrac0
  have hmin_nonneg : 0 ≤ (m : ℚ) + s / 60 := add_nonneg hm0' hsf0
  have key : utils.angle_to_time (utils.time_to_angle h m s) = (h, m, pyround6 s) := by
    simp only [utils.angle_to_time]
    rw [ehours, hfloorh]
    rw [show ((h : ℚ) + ((m : ℚ) / 60 + s / 3600) - (h : ℚ)) * 60 = (m : ℚ) + s / 60 from by
      ring]
    rw [hfloorm]
    rw [show ((m : ℚ) + s / 60 - (m : ℚ)) * 60 = s from by ring]
    rw [ratTrunc_eq_floor hhours_nonneg, hfloorh, ratTrunc_eq_floor hmin_nonneg, hfloorm]
  rw [key]
  exact ⟨rfl, rfl, pyround6_abs_le s⟩

/-- Witness for `angle_time_roundtrip` at (1 h, 2 min, 3 s). -/
theorem angle_time_roundtrip_witness :
    (utils.angle_to_time (utils.time_to_angle 1 2 3)).1 = 1
      ∧ (utils.angle_to_time (utils.time_to_angle 1 2 3)).2.1 = 2
      ∧ |(utils.angle_to_time (utils.time_to_angle 1 2 3)).2.2 - 3| ≤ 1 / 2000000 :=
  angle_time_roundtrip 1 2 3 (by norm_num) (by norm_num) (by norm_num) (by norm_num)
    (by norm_num) (by norm_num)

/-! ### Monotonicity of the Julian day over valid civil dates (claim C8) -/

theorem julCls_eq (y m : ℤ) (d : ℚ) (hm1 : 1 ≤ m) (hm2 : m ≤ 12) :
    julCls y m d = utils.is_julian (if m ≤ 2 then y - 1 else y)
      (if m ≤ 2 then m + 12 else m) ((ratTrunc d : ℤ) : ℚ) := by
  by_cases hm : m ≤ 2
  · simp only [julCls, if_pos hm]
    have hA : ¬(m + 12 < 10) := by omega
    have hB : m + 12 ≠ 10 := by omega
    by_cases hy2 : y ≤ 1582
    · have hC : y - 1 < 1582 := by omega
      simp [utils.is_julian, hy2, hA, hB, hC]
    · have hC : ¬(y - 1 < 1582) := by omega
      simp [utils.is_julian, hy2, hA, hB, hC]
  · simp only [julCls, if_neg hm, is_julian_ratTrunc]

theorem julCls_indep (y m : ℤ) (d : ℚ) (hnot : ¬(y = 1582 ∧ m = 10)) :
    julCls y m d = julCls y m 1 := by
  by_cases hm : m ≤ 2
  · simp only [julCls, if_pos hm]
  · simp only [julCls, if_neg hm]
    by_cases h1 : y < 1582
    · simp [utils.is_julian, h1]
    · by_cases h2 : y = 1582
      · have h10 : ¬(m = 10) := fun h => hnot ⟨h2, h⟩
        by_cases h3 : m < 10
        · simp [utils.is_julian, h1, h2, h3]
        · simp [utils.is_julian, beq_iff_eq, h1, h2, h3, h10]
      · have hb : (y == 1582) = false := beq_eq_false_iff_ne.mpr h2
        simp [utils.is_julian, h1, hb]

theorem julian_day_closed (y m : ℤ) (d : ℚ) (hy : -4712 ≤ y) (hm1 : 1 ≤ m) (hm2 : m ≤ 12) :
    utils.julian_day y m d = ((jdInt y m (julCls y m d) : ℤ) : ℚ) + d - 1524.5 := by
  rw [julCls_eq y m d hm1 hm2]
  by_cases hm : m ≤ 2
  · have hor : m = 1 ∨ m = 2 := by omega
    have hb : (m == 1 || m == 2) = true := by rcases hor with h | h <;> simp [h]
    simp only [utils.julian_day, jdInt, hb, if_true, if_pos hm]
    rw [show ((y - 1 : ℤ) : ℚ) + 4716 = ((y + 4715 : ℤ) : ℚ) by push_cast; ring]
    rw [ratTrunc_mul_365 (y + 4715) (by omega)]
    rw [show ((m + 12 : ℤ) : ℚ) + 1 = ((m + 13 : ℤ) : ℚ) by push_cast; ring]
    rw [ratTrunc_mul_306 (m + 13) (by omega)]
    rw [show y - 1 + 4716 = y + 4715 from by ring, show m + 12 + 1 = m + 13 from by ring]
    cases hju : utils.is_julian (y - 1) (m + 12) ((ratTrunc d : ℤ) : ℚ) with
    | true => simp only [if_true]; push_cast; ring
    | false =>
      have hyg : ¬(y - 1 < 1582) := by
        intro hc
        simp [utils.is_julian, hc] at hju
      have ha : ratTrunc (((y - 1 : ℤ) : ℚ) / 100) = (y - 1) / 100 := by
        rw [show (100 : ℚ) = ((100 : ℕ) : ℚ) from by norm_num,
          ratTrunc_intCast_div_natCast _ _ (by omega)]
        norm_num
      have ha4 : ratTrunc ((((y - 1) / 100 : ℤ) : ℚ) / 4) = (y - 1) / 100 / 4 := by
        rw [show (4 : ℚ) = ((4 : ℕ) : ℚ) from by norm_num,
          ratTrunc_intCast_div_natCast _ _ (Int.ediv_nonneg (by omega) (by norm_num))]
        norm_num
      rw [ha, ha4]
      simp only [Bool.false_eq_true, if_false]
      push_cast
      ring
  · have hb : (m == 1 || m == 2) = false := by
      have h1 : m ≠ 1 := by omega
      have h2 : m ≠ 2 := by omega
      simp [h1, h2]
    simp only [utils.julian_day, jdInt, hb, Bool.false_eq_true, if_false, if_neg hm]
    rw [show ((y : ℤ) : ℚ) + 4716 = ((y + 4716 : ℤ) : ℚ) by push_cast; ring]
    rw [ratTrunc_mul_365 (y + 4716) (by omega)]
    rw [show ((m : ℤ) : ℚ) + 1 = ((m + 1 : ℤ) : ℚ) by push_cast; ring]
    rw [ratTrunc_mul_306 (m + 1) (by omega)]
    cases hju : utils.is_julian y m ((ratTrunc d : ℤ) : ℚ) with
    | true => simp only [if_true]; push_cast; ring
    | false =>
      have hyg : ¬(y < 1582) := by
        intro hc
        simp [utils.is_julian, hc] at hju
      have ha : ratTrunc (((y : ℤ) : ℚ) / 100) = y / 100 := by
        rw [show (100 : ℚ) = ((100 : ℕ) : ℚ) from by norm_num,
          ratTrunc_intCast_div_natCast _ _ (by omega)]
        norm_num
      have ha4 : ratTrunc (((y / 100 : ℤ) : ℚ) / 4) = y / 100 / 4 := by
        rw [show (4 : ℚ) = ((4 : ℕ) : ℚ) from by norm_num,
          ratTrunc_intCast_div_natCast _ _ (Int.ediv_nonneg (by omega) (by norm_num))]
        norm_num
      rw [ha, ha4]
      simp only [Bool.false_eq_true, if_false]
      push_cast
      ring

theorem jdInt_roll (y m : ℤ) (hm1 : 1 ≤ m) (hm2 : m ≤ 12) (hnot : ¬(y = 1582 ∧ m = 10)) :
    jdInt y m (julCls y m 1) + monthLength y m
      ≤ jdInt (nextY y m) (nextM m) (julCls (nextY y m) (nextM m) 1) := by
  interval_cases m
  · -- January
    by_cases hB : y = 1582
    · subst hB
      norm_num [nextY, nextM, jdInt, julCls, utils.is_julian, monthLength, utils.is_leap]
    · have hC : (y ≤ 1582) ↔ (y < 1582) ∨ (y = 1582) := by omega
      by_cases hA : y < 1582 <;>
        norm_num [nextY, nextM, jdInt, julCls, utils.is_julian, monthLength, utils.is_leap,
          Bool.beq_eq_decide_eq, bne, hA, hB, hC] <;> omega
  · -- February
    by_cases hB : y = 1582
    · subst hB
      norm_num [nextY, nextM, jdInt, julCls, utils.is_julian, monthLength, utils.is_leap]
    · have hC : (y ≤ 1582) ↔ (y < 1582) ∨ (y = 1582) := by omega
      by_cases hA : y < 1582
      · norm_num [nextY, nextM, jdInt, julCls, utils.is_julian, monthLength, utils.is_leap,
          Bool.beq_eq_decide_eq, bne, hA, hB, hC] <;> split_ifs <;> omega
      · by_cases h100 : y % 100 = 0
        · have e1 : (y - 1) / 100 = y / 100 - 1 := by omega
          by_cases h4 : y / 100 % 4 = 0
          · have e2 : (y / 100 - 1) / 4 = y / 100 / 4 - 1 := by omega
            norm_num [nextY, nextM, jdInt, julCls, utils.is_julian, monthLength, utils.is_leap,
              Bool.beq_eq_decide_eq, bne, hA, hB, hC] <;> split_ifs <;> omega
          · have e2 : (y / 100 - 1) / 4 = y / 100 / 4 := by omega
            norm_num [nextY, nextM, jdInt, julCls, utils.is_julian, monthLength, utils.is_leap,
              Bool.beq_eq_decide_eq, bne, hA, hB, hC] <;> split_ifs <;> omega
        · have e1 : (y - 1) / 100 = y / 100 := by omega
          have e2 : (y - 1) / 100 / 4 = y / 100 / 4 := by rw [e1]
          norm_num [nextY, nextM, jdInt, julCls, utils.is_julian, monthLength, utils.is_leap,
            Bool.beq_eq_decide_eq, bne, hA, hB, hC] <;> split_ifs <;> omega
  · -- March
    by_cases hB : y = 1582
    · subst hB
      norm_num [nextY, nextM, jdInt, julCls, utils.is_julian, monthLength, utils.is_leap]
    · by_cases hA : y < 1582 <;>
        norm_num [nextY, nextM, jdInt, julCls, utils.is_julian, monthLength, utils.is_leap,
          Bool.beq_eq_decide_eq, bne, hA, hB] <;> omega
  · -- April
    by_cases hB : y = 1582
    · subst hB
      norm_num [nextY, nextM, jdInt, julCls, utils.is_julian, monthLength, utils.is_leap]
    · by_cases hA : y < 1582 <;>
        norm_num [nextY, nextM, jdInt, julCls, utils.is_julian, monthLength, utils.is_leap,
          Bool.beq_eq_decide_eq, bne, hA, hB] <;> omega
  · -- May
    by_cases hB : y = 1582
    · subst hB
      norm_num [nextY, nextM, jdInt, julCls, utils.is_julian, monthLength, utils.is_leap]
    · by_cases hA : y < 1582 <;>
        norm_num [nextY, nextM, jdInt, julCls, utils.is_julian, monthLength, utils.is_leap,
          Bool.beq_eq_decide_eq, bne, hA, hB] <;> omega
  · -- June
    by_cases hB : y = 1582
    · subst hB
      norm_num [nextY, nextM, jdInt, julCls, utils.is_julian, monthLength, utils.is_leap]
    · by_cases hA : y < 1582 <;>
        norm_num [nextY, nextM, jdInt, julCls, utils.is_julian, monthLength, utils.is_leap,
          Bool.beq_eq_decide_eq, bne, hA, hB] <;> omega
  · -- July
    by_cases hB : y = 1582
    · subst hB
      norm_num [nextY, nextM, jdInt, julCls, utils.is_julian, monthLength, utils.is_leap]
    · by_cases hA : y < 1582 <;>
        norm_num [nextY, nextM, jdInt, julCls, utils.is_julian, monthLength, utils.is_leap,
          Bool.beq_eq_decide_eq, bne, hA, hB] <;> omega
  · -- August
    by_cases hB : y = 1582
    · subst hB
      norm_num [nextY, nextM, jdInt, julCls, utils.is_julian, monthLength, utils.is_leap]
    · by_cases hA : y < 1582 <;>
        norm_num [nextY, nextM, jdInt, julCls, utils.is_julian, monthLength, utils.is_leap,
          Bool.beq_eq_decide_eq, bne, hA, hB] <;> omega
  · -- September
    by_cases hB : y = 1582
    · subst hB
      norm_num [nextY, nextM, jdInt, julCls, utils.is_julian, monthLength, utils.is_leap]
    · by_cases hA : y < 1582 <;>
        norm_num [nextY, nextM, jdInt, julCls, utils.is_julian, monthLength, utils.is_leap,
          Bool.beq_eq_decide_eq, bne, hA, hB] <;> omega
  · -- October
    have hB : y ≠ 1582 := fun h => hnot ⟨h, rfl⟩
    by_cases hA : y < 1582 <;>
      norm_num [nextY, nextM, jdInt, julCls, utils.is_julian, monthLength, utils.is_leap,
        Bool.beq_eq_decide_eq, bne, hA, hB] <;> omega
  · -- November
    by_cases hB : y = 1582
    · subst hB
      norm_num [nextY, nextM, jdInt, julCls, utils.is_julian, monthLength, utils.is_leap]
    · by_cases hA : y < 1582 <;>
        norm_num [nextY, nextM, jdInt, julCls, utils.is_julian, monthLength, utils.is_leap,
          Bool.beq_eq_decide_eq, bne, hA, hB] <;> omega
  · -- December
    by_cases hB : y = 1582
    · subst hB
      norm_num [nextY, nextM, jdInt, julCls, utils.is_julian, monthLength, utils.is_leap]
    · have hD : (y + 1 ≤ 1582) ↔ (y < 1582) := by omega
      by_cases hA : y < 1582 <;>
        norm_num [nextY, nextM, jdInt, julCls, utils.is_julian, monthLength, utils.is_leap,
          Bool.beq_eq_decide_eq, bne, hA, hB, hD] <;> omega

theorem monthStart_lt_next (y m : ℤ) (hy : -4712 ≤ y) (hm1 : 1 ≤ m) (hm2 : m ≤ 12) :
    utils.julian_day y m 1 < utils.julian_day (nextY y m) (nextM m) 1 := by
  have hny : -4712 ≤ nextY y m := by unfold nextY; split <;> omega
  have hnm1 : 1 ≤ nextM m := by unfold nextM; split <;> omega
  have hnm2 : nextM m ≤ 12 := by unfold nextM; split <;> omega
  by_cases hc : y = 1582 ∧ m = 10
  · obtain ⟨h1, h2⟩ := hc; subst h1; subst h2
    norm_num [nextY, nextM, utils.julian_day, utils.is_julian, ratTrunc]
  · rw [julian_day_closed y m 1 hy hm1 hm2,
      julian_day_closed (nextY y m) (nextM m) 1 hny hnm1 hnm2]
    have hroll := jdInt_roll y m hm1 hm2 hc
    have hlen : 28 ≤ monthLength y m := by
      unfold monthLength
      split_ifs <;> omega
    have hlt : jdInt y m (julCls y m 1)
        < jdInt (nextY y m) (nextM m) (julCls (nextY y m) (nextM m) 1) := by omega
    have hq : ((jdInt y m (julCls y m 1) : ℤ) : ℚ)
        < ((jdInt (nextY y m) (nextM m) (julCls (nextY y m) (nextM m) 1) : ℤ) : ℚ) := by
      exact_mod_cast hlt
    linarith

theorem monthStart_le_of_idx (k : ℕ) : ∀ (y1 m1 y2 m2 : ℤ), -4712 ≤ y1 → 1 ≤ m1 → m1 ≤ 12 →
    1 ≤ m2 → m2 ≤ 12 → monthIdx y2 m2 = monthIdx y1 m1 + k →
    utils.julian_day y1 m1 1 ≤ utils.julian_day y2 m2 1 := by
  induction k with
  | zero =>
    intro y1 m1 y2 m2 hy1 hm11 hm12 hm21 hm22 hidx
    have heq : y1 = y2 ∧ m1 = m2 := by unfold monthIdx at hidx; omega
    obtain ⟨h1, h2⟩ := heq; subst h1; subst h2
    exact le_refl _
  | succ k ih =>
    intro y1 m1 y2 m2 hy1 hm11 hm12 hm21 hm22 hidx
    have hny : -4712 ≤ nextY y1 m1 := by unfold nextY; split <;> omega
    have hnm1 : 1 ≤ nextM m1 := by unfold nextM; split <;> omega
    have hnm2 : nextM m1 ≤ 12 := by unfold nextM; split <;> omega
    have hstep : monthIdx (nextY y1 m1) (nextM m1) = monthIdx y1 m1 + 1 := by
      unfold monthIdx nextY nextM
      by_cases h : m1 = 12 <;> simp [h] <;> omega
    have hle := ih (nextY y1 m1) (nextM m1) y2 m2 hny hnm1 hnm2 hm21 hm22 (by omega)
    exact le_trans (monthStart_lt_next y1 m1 hy1 hm11 hm12).le hle

theorem monthStart_le_jd (y m : ℤ) (d : ℚ) (hy : -4712 ≤ y) (hv : validDate y m d) :
    utils.julian_day y m 1 ≤ utils.julian_day y m d := by
  obtain ⟨hm1, hm2, hd1, hd2, hcut⟩ := hv
  by_cases hc : y = 1582 ∧ m = 10
  · obtain ⟨h1, h2⟩ := hc; subst h1; subst h2
    rw [julian_day_closed 1582 10 1 (by norm_num) (by norm_num) (by norm_num),
      julian_day_closed 1582 10 d (by norm_num) (by norm_num) (by norm_num)]
    have hcls1 : julCls 1582 10 1 = true := by norm_num [julCls, utils.is_julian]
    have hclsd : julCls 1582 10 d = decide (d < 15) := by simp [julCls, utils.is_julian]
    rw [hcls1, hclsd]
    by_cases h15 : d < 15
    · rw [decide_eq_true h15]
      linarith
    · rw [decide_eq_false h15]
      have hc1 : jdInt 1582 10 true = 2300680 := by norm_num [jdInt]
      have hc2 : jdInt 1582 10 false = 2300670 := by norm_num [jdInt]
      rw [hc1, hc2]
      have h15' : (15 : ℚ) ≤ d := not_lt.mp h15
      push_cast
      linarith
  · rw [julian_day_closed y m 1 hy hm1 hm2, julian_day_closed y m d hy hm1 hm2,
      julCls_indep y m d hc]
    linarith

theorem jd_lt_nextMonthStart (y m : ℤ) (d : ℚ) (hy : -4712 ≤ y) (hv : validDate y m d) :
    utils.julian_day y m d < utils.julian_day (nextY y m) (nextM m) 1 := by
  obtain ⟨hm1, hm2, hd1, hd2, hcut⟩ := hv
  have hny : -4712 ≤ nextY y m := by unfold nextY; split <;> omega
  have hnm1 : 1 ≤ nextM m := by unfold nextM; split <;> omega
  have hnm2 : nextM m ≤ 12 := by unfold nextM; split <;> omega
  by_cases hc : y = 1582 ∧ m = 10
  · obtain ⟨h1, h2⟩ := hc; subst h1; subst h2
    have hnext : utils.julian_day (nextY 1582 10) (nextM 10) 1 = 2299177.5 := by
      norm_num [nextY, nextM, utils.julian_day, utils.is_julian, ratTrunc]
    rw [hnext, julian_day_closed 1582 10 d (by norm_num) (by norm_num) (by norm_num)]
    have hclsd : julCls 1582 10 d = decide (d < 15) := by simp [julCls, utils.is_julian]
    rw [hclsd]
    have hlen : monthLength 1582 10 = 31 := by norm_num [monthLength]
    rw [hlen] at hd2
    by_cases h15 : d < 15
    · rw [decide_eq_true h15]
      have hc1 : jdInt 1582 10 true = 2300680 := by norm_num [jdInt]
      rw [hc1]
      push_cast
      linarith
    · rw [decide_eq_false h15]
      have hc2 : jdInt 1582 10 false = 2300670 := by norm_num [jdInt]
      rw [hc2]
      push_cast at hd2 ⊢
      linarith
  · rw [julian_day_closed y m d hy hm1 hm2,
      julian_day_closed (nextY y m) (nextM m) 1 hny hnm1 hnm2,
      julCls_indep y m d hc]
    have hroll := jdInt_roll y m hm1 hm2 hc
    have hcast : ((jdInt y m (julCls y m 1) : ℤ) : ℚ) + ((monthLength y m : ℤ) : ℚ)
        ≤ ((jdInt (nextY y m) (nextM m) (julCls (nextY y m) (nextM m) 1) : ℤ) : ℚ) := by
      exact_mod_cast hroll
    linarith

theorem jd_same_month_lt (y m : ℤ) (d1 d2 : ℚ) (hy : -4712 ≤ y)
    (hv1 : validDate y m d1) (hv2 : validDate y m d2) (hlt : d1 < d2) :
    utils.julian_day y m d1 < utils.julian_day y m d2 := by
  obtain ⟨hm1, hm2, hd11, hd12, hcut1⟩ := hv1
  obtain ⟨_, _, hd21, hd22, hcut2⟩ := hv2
  by_cases hc : y = 1582 ∧ m = 10
  · obtain ⟨h1, h2⟩ := hc; subst h1; subst h2
    rw [julian_day_closed 1582 10 d1 (by norm_num) (by norm_num) (by norm_num),
      julian_day_closed 1582 10 d2 (by norm_num) (by norm_num) (by norm_num)]
    have hcls1 : julCls 1582 10 d1 = decide (d1 < 15) := by simp [julCls, utils.is_julian]
    have hcls2 : julCls 1582 10 d2 = decide (d2 < 15) := by simp [julCls, utils.is_julian]
    rw [hcls1, hcls2]
    have hc1 : jdInt 1582 10 true = 2300680 := by norm_num [jdInt]
    have hc2 : jdInt 1582 10 false = 2300670 := by norm_num [jdInt]
    by_cases ha : d1 < 15 <;> by_cases hb : d2 < 15
    · rw [decide_eq_true ha, decide_eq_true hb]
      linarith
    · rw [decide_eq_true ha, decide_eq_false hb, hc1, hc2]
      have hd15 : d1 < 5 := by
        by_contra hn
        exact hcut1 ⟨rfl, rfl, le_of_not_lt hn, ha⟩
      push_cast
      linarith [not_lt.mp hb]
    · exact absurd (hlt.trans hb) ha
    · rw [decide_eq_false ha, decide_eq_false hb]
      linarith
  · rw [julian_day_closed y m d1 hy hm1 hm2, julian_day_closed y m d2 hy hm1 hm2,
      julCls_indep y m d1 hc, julCls_indep y m d2 hc]
    linarith

theorem julian_day_strict_mono_main (y1 m1 : ℤ) (d1 : ℚ) (y2 m2 : ℤ) (d2 : ℚ)
    (hy1 : -4712 ≤ y1) (hy2 : -4712 ≤ y2)
    (hv1 : validDate y1 m1 d1) (hv2 : validDate y2 m2 d2)
    (hlt : calLt y1 m1 d1 y2 m2 d2) :
    utils.julian_day y1 m1 d1 < utils.julian_day y2 m2 d2 := by
  by_cases hsame : y1 = y2 ∧ m1 = m2
  · obtain ⟨h1, h2⟩ := hsame; subst h1; subst h2
    have hd : d1 < d2 := by
      rcases hlt with h | ⟨_, h | ⟨_, h⟩⟩
      · omega
      · omega
      · exact h
    exact jd_same_month_lt y1 m1 d1 d2 hy1 hv1 hv2 hd
  · have hidx : monthIdx y1 m1 < monthIdx y2 m2 := by
      have h1 := hv1.1
      have h2 := hv1.2.1
      have h3 := hv2.1
      have h4 := hv2.2.1
      unfold monthIdx
      rcases hlt with h | ⟨he, h | ⟨hm, _⟩⟩
      · omega
      · omega
      · exact absurd ⟨he, hm⟩ hsame
    have hm11 := hv1.1
    have hm12 := hv1.2.1
    have hny : -4712 ≤ nextY y1 m1 := by unfold nextY; split <;> omega
    have hnm1 : 1 ≤ nextM m1 := by unfold nextM; split <;> omega
    have hnm2 : nextM m1 ≤ 12 := by unfold nextM; split <;> omega
    have hstep : monthIdx (nextY y1 m1) (nextM m1) = monthIdx y1 m1 + 1 := by
      unfold monthIdx nextY nextM
      by_cases h : m1 = 12 <;> simp [h] <;> omega
    have hk : monthIdx y2 m2 = monthIdx (nextY y1 m1) (nextM m1)
        + ((monthIdx y2 m2 - monthIdx y1 m1 - 1).toNat : ℤ) := by
      omega
    calc utils.julian_day y1 m1 d1
        < utils.julian_day (nextY y1 m1) (nextM m1) 1 :=
          jd_lt_nextMonthStart y1 m1 d1 hy1 hv1
      _ ≤ utils.julian_day y2 m2 1 :=
          monthStart_le_of_idx _ (nextY y1 m1) (nextM m1) y2 m2 hny hnm1 hnm2
            hv2.1 hv2.2.1 hk
      _ ≤ utils.julian_day y2 m2 d2 := monthStart_le_jd y2 m2 d2 hy2 hv2

/-- C8 (counterexample): under the claim's stated constraints alone (months in
1..12, day ≥ 0, no skipped cutover date), `julian_day` is NOT monotone in
calendar order: (2000, 1, 40) precedes (2000, 2, 1) lexicographically, yet its
Julian day 2451583.5 exceeds 2451575.5. -/
theorem julian_day_not_calendar_monotone :
    calLt 2000 1 40 2000 2 1
      ∧ utils.julian_day 2000 2 1 < utils.julian_day 2000 1 40 := by
  constructor
  · exact Or.inr ⟨rfl, Or.inl (by norm_num)⟩
  · norm_num [utils.julian_day, utils.is_julian, ratTrunc]

/-- C8 (amended): `julian_day` is strictly monotone in calendar order over
valid civil dates (day within the month's length, skipped cutover dates
excluded) from the epoch year -4712 on: an earlier valid date has a strictly
smaller Julian day. -/
theorem julian_day_strict_mono_valid (y1 m1 : ℤ) (d1 : ℚ) (y2 m2 : ℤ) (d2 : ℚ)
    (hy1 : -4712 ≤ y1) (hy2 : -4712 ≤ y2)
    (hv1 : validDate y1 m1 d1) (hv2 : validDate y2 m2 d2)
    (hlt : calLt y1 m1 d1 y2 m2 d2) :
    utils.julian_day y1 m1 d1 < utils.julian_day y2 m2 d2 :=
  julian_day_strict_mono_main y1 m1 d1 y2 m2 d2 hy1 hy2 hv1 hv2 hlt

/-- Witness for `julian_day_strict_mono_valid` at the cutover pair
1582-10-04 < 1582-10-15. -/
theorem julian_day_strict_mono_valid_witness :
    utils.julian_day 1582 10 4 < utils.julian_day 1582 10 15 :=
  julian_day_strict_mono_valid 1582 10 4 1582 10 15 (by norm_num) (by norm_num)
    (by norm_num [validDate, monthLength]) (by norm_num [validDate, monthLength])
    (Or.inr ⟨rfl, Or.inr ⟨rfl, by norm_num⟩⟩)
